import Mathlib

/-!
Verification of the joseph repository: a shallow embedding of the
data-lookup component (`src/database.py`, class `FnddsAPI`) and of the
DAG engine (`src/graph.py`, class `Node`), together with theorems that
settle the specification claims against the code.

Conventions of the embedding:
* Python `None`-able parameters become `Option` values.
* Python dictionaries become total functions into `Option` (`dict.get`
  returns `None` for a missing key, including the key `None` itself,
  which is modelled by `Option.bind`).
* A Python `raise` becomes `Except.error` carrying the message raised.
* Mutation of a Python object's attribute is modelled by returning the
  attribute's new value alongside the call's result.
-/

/-- State of an `FnddsAPI` object (src/database.py, lines 59-80): the
lookup dictionaries, the nutrient header, and the nutrient-series
helper.  The field `food_nutrient_series_by_code` is Modelled from the
spec: the helper method it stands for (the body behind
`get_food_nutrient_series`, line 135) is absent from src; the spec says
the call returns a numeric attribute vector aligned to the published
header list. -/
structure FnddsAPI where
  alias_to_food_code : String → Option Int
  food_code_to_food_name : Int → Option String
  food_name_to_alias : String → Option String
  nutrient_header : List String
  food_unit_by_food_code : Int → Option String
  food_nutrient_series_by_code : Option Int → List ℚ

/-- Python truthiness of an optional string argument: `None` and the
empty string are falsy (used by `if alias:` / `if food_name:` in
`get_food_code`, src/database.py lines 94 and 96). -/
def truthy : Option String → Bool
  | none => false
  | some s => !s.isEmpty

/-- Whether a call outcome is a raised error. -/
def isErr {ε α : Type} : Except ε α → Bool
  | Except.error _ => true
  | Except.ok _ => false

/-- Fallback branch of `get_food_code` once the `alias` parameter was
found falsy (src/database.py lines 96-98). -/
def get_food_code_by_name (api : FnddsAPI) (food_name : Option String) :
    Except String (Option Int) :=
  match food_name with
  | some f =>
    if f.isEmpty then Except.error ("Either alias or food_name must be provided.")
    else Except.ok ((api.food_name_to_alias f).bind api.alias_to_food_code)
  | none => Except.error ("Either alias or food_name must be provided.")

/-- `FnddsAPI.get_food_code` (src/database.py lines 90-98): answers from
the alias when it is truthy, otherwise from `food_name` when it is truthy,
otherwise raises `ValueError`. -/
def get_food_code (api : FnddsAPI) (al food_name : Option String) :
    Except String (Option Int) :=
  match al with
  | some a =>
    if a.isEmpty then get_food_code_by_name api food_name
    else Except.ok (api.alias_to_food_code a)
  | none => get_food_code_by_name api food_name

/-- `FnddsAPI.get_food_name` (src/database.py lines 100-109): answers
from the alias when it is not `None`, else from `food_code` when it is not
`None`, else raises `ValueError`. -/
def get_food_name (api : FnddsAPI) (al : Option String)
    (food_code : Option Int) : Except String (Option String) :=
  match al with
  | some a => Except.ok ((api.alias_to_food_code a).bind api.food_code_to_food_name)
  | none =>
    match food_code with
    | some c => Except.ok (api.food_code_to_food_name c)
    | none => Except.error ("Either alias or food_code must be provided.")

/-- `FnddsAPI.get_food_alias` (src/database.py lines 111-120). -/
def get_food_alias (api : FnddsAPI) (food_code : Option Int)
    (food_name : Option String) : Except String (Option String) :=
  match food_code with
  | some c => Except.ok ((api.food_code_to_food_name c).bind api.food_name_to_alias)
  | none =>
    match food_name with
    | some f => Except.ok (api.food_name_to_alias f)
    | none => Except.error ("Either food_code or food_name must be provided.")

/-- `FnddsAPI.get_food_unit` (src/database.py lines 122-126): when
`food_code` is `None` it is derived via `get_food_code` (whose
`ValueError` propagates), then the unit dictionary is consulted. -/
def get_food_unit (api : FnddsAPI) (alist : Option String)
    (food_code : Option Int) (food_name : Option String) :
    Except String (Option String) :=
  match food_code with
  | some c => Except.ok (api.food_unit_by_food_code c)
  | none =>
    match get_food_code api alist food_name with
    | Except.error e => Except.error e
    | Except.ok oc => Except.ok (oc.bind api.food_unit_by_food_code)

/-- `FnddsAPI.get_food_nutrient_series` (src/database.py lines 128-135):
when `food_code` is `None` it is derived via `get_food_code` (whose
`ValueError` propagates), then the nutrient-series helper is applied. -/
def get_food_nutrient_series (api : FnddsAPI) (al : Option String)
    (food_code : Option Int) (food_name : Option String) :
    Except String (List ℚ) :=
  match food_code with
  | some c => Except.ok (api.food_nutrient_series_by_code (some c))
  | none =>
    match get_food_code api al food_name with
    | Except.error e => Except.error e
    | Except.ok oc => Except.ok (api.food_nutrient_series_by_code oc)

/-- A small concrete `FnddsAPI` state used to evaluate the lookup
methods at explicit inputs. -/
def sampleApi : FnddsAPI where
  alias_to_food_code := fun s => if s = ("beef") then some 100 else none
  food_code_to_food_name := fun c => if c = 100 then some ("Ground beef") else none
  food_name_to_alias := fun s => if s = ("Ground beef") then some ("beef") else none
  nutrient_header := [("protein"), ("fat")]
  food_unit_by_food_code := fun c => if c = 100 then some ("lb") else none
  food_nutrient_series_by_code := fun oc =>
    match oc with
    | some 100 => [26, 15]
    | _ => [0, 0]

lemma isErr_get_food_code (api : FnddsAPI) (al food_name : Option String) :
    isErr (get_food_code api al food_name) = true ↔
      truthy al = false ∧ truthy food_name = false := by
  cases al with
  | none =>
    cases food_name with
    | none => simp [get_food_code, get_food_code_by_name, truthy, isErr]
    | some f =>
      by_cases hf : f.isEmpty <;>
        simp [get_food_code, get_food_code_by_name, truthy, isErr, hf]
  | some a =>
    by_cases ha : a.isEmpty
    · cases food_name with
      | none => simp [get_food_code, get_food_code_by_name, truthy, isErr, ha]
      | some f =>
        by_cases hf : f.isEmpty <;>
          simp [get_food_code, get_food_code_by_name, truthy, isErr, ha, hf]
    · simp [get_food_code, truthy, isErr, ha]

lemma isErr_get_food_name (api : FnddsAPI) (al : Option String)
    (food_code : Option Int) :
    isErr (get_food_name api al food_code) = true ↔
      al = none ∧ food_code = none := by
  cases al <;> cases food_code <;> simp [get_food_name, isErr]

lemma isErr_get_food_alias (api : FnddsAPI) (food_code : Option Int)
    (food_name : Option String) :
    isErr (get_food_alias api food_code food_name) = true ↔
      food_code = none ∧ food_name = none := by
  cases food_code <;> cases food_name <;> simp [get_food_alias, isErr]

lemma isErr_get_food_unit (api : FnddsAPI) (alist : Option String)
    (food_code : Option Int) (food_name : Option String) :
    isErr (get_food_unit api alist food_code food_name) = true ↔
      food_code = none ∧ truthy alist = false ∧ truthy food_name = false := by
  cases food_code with
  | some c => simp [get_food_unit, isErr]
  | none =>
    have hiff := isErr_get_food_code api alist food_name
    cases h : get_food_code api alist food_name with
    | error e =>
      rw [h] at hiff
      simp [isErr] at hiff
      simp [get_food_unit, h, isErr, hiff]
    | ok oc =>
      rw [h] at hiff
      simp [isErr] at hiff
      simp [get_food_unit, h, isErr]
      exact hiff

lemma isErr_get_food_nutrient_series (api : FnddsAPI) (al : Option String)
    (food_code : Option Int) (food_name : Option String) :
    isErr (get_food_nutrient_series api al food_code food_name) = true ↔
      food_code = none ∧ truthy al = false ∧ truthy food_name = false := by
  cases food_code with
  | some c => simp [get_food_nutrient_series, isErr]
  | none =>
    have hiff := isErr_get_food_code api al food_name
    cases h : get_food_code api al food_name with
    | error e =>
      rw [h] at hiff
      simp [isErr] at hiff
      simp [get_food_nutrient_series, h, isErr, hiff]
    | ok oc =>
      rw [h] at hiff
      simp [isErr] at hiff
      simp [get_food_nutrient_series, h, isErr]
      exact hiff

/-- Claim C1, counterexample: supplying BOTH an al and a food name to
`get_food_code` (two identifying parameters, so the claim demands an
input error) does not raise — the call answers from the al.  So the
claimed equivalence "input error iff the number of identifying
parameters is not exactly one" is false at this input. -/
theorem get_food_code_two_params_no_error :
    get_food_code sampleApi (some ("beef")) (some ("Ground beef")) =
      Except.ok (some 100) ∧
    isErr (get_food_code sampleApi (some ("beef")) (some ("Ground beef"))) = false := by
  constructor <;> rfl

/-- Claim C1, amended: each data-lookup method raises an input error iff
every identifying parameter it consults is absent — absent meaning falsy
(`None` or empty string) for `get_food_code` and for the derived paths of
`get_food_unit` / `get_food_nutrient_series`, and `None` for
`get_food_name` / `get_food_alias`.  Supplying more than one parameter
never raises: the method answers from the higher-precedence parameter. -/
theorem lookup_error_iff_no_param (api : FnddsAPI) (al food_name alist : Option String)
    (food_code : Option Int) :
    (isErr (get_food_code api al food_name) = true ↔
      truthy al = false ∧ truthy food_name = false) ∧
    (isErr (get_food_name api al food_code) = true ↔
      al = none ∧ food_code = none) ∧
    (isErr (get_food_alias api food_code food_name) = true ↔
      food_code = none ∧ food_name = none) ∧
    (isErr (get_food_unit api alist food_code food_name) = true ↔
      food_code = none ∧ truthy alist = false ∧ truthy food_name = false) ∧
    (isErr (get_food_nutrient_series api al food_code food_name) = true ↔
      food_code = none ∧ truthy al = false ∧ truthy food_name = false) :=
  ⟨isErr_get_food_code api al food_name,
   isErr_get_food_name api al food_code,
   isErr_get_food_alias api food_code food_name,
   isErr_get_food_unit api alist food_code food_name,
   isErr_get_food_nutrient_series api al food_code food_name⟩

/-- Claim C9, counterexample: the empty string is an al value not
present in the lookup table, and it is the only identifying parameter
supplied, yet `get_food_code` raises (its truthiness test treats the
empty string as absent) instead of returning `None`. -/
theorem get_food_code_empty_alias_raises :
    sampleApi.alias_to_food_code ("") = none ∧
    isErr (get_food_code sampleApi (some ("")) none) = true := by
  constructor <;> rfl

/-- Claim C9, amended: an unknown identifying value makes the lookups
return `None` (`Except.ok none`) rather than raise, provided the value
counts as supplied for the method consulted: any value (empty string
included) for `get_food_name` / `get_food_alias` / `get_food_unit` with a
code, but only a non-empty string for `get_food_code`, whose truthiness
test treats the empty string as absent and falls through to the error
branch. -/
theorem lookup_unknown_returns_none (api : FnddsAPI) (a f : String) (c : Int) :
    (a.isEmpty = false → api.alias_to_food_code a = none →
      get_food_code api (some a) none = Except.ok none) ∧
    (f.isEmpty = false → api.food_name_to_alias f = none →
      get_food_code api none (some f) = Except.ok none) ∧
    (api.alias_to_food_code a = none →
      get_food_name api (some a) none = Except.ok none) ∧
    (api.food_code_to_food_name c = none →
      get_food_alias api (some c) none = Except.ok none) ∧
    (api.food_unit_by_food_code c = none →
      get_food_unit api none (some c) none = Except.ok none) := by
  refine ⟨?_, ?_, ?_, ?_, ?_⟩
  · intro ha hnone
    simp [get_food_code, ha, hnone]
  · intro hf hnone
    simp [get_food_code, get_food_code_by_name, hf, hnone]
  · intro hnone
    simp [get_food_name, hnone]
  · intro hnone
    simp [get_food_alias, hnone]
  · intro hnone
    simp [get_food_unit, hnone]

/-- Witness for the amended Claim C9 at concrete inputs. -/
theorem lookup_unknown_returns_none_witness :
    get_food_code sampleApi (some ("pork")) none = Except.ok none ∧
    get_food_name sampleApi (some ("pork")) none = Except.ok none ∧
    get_food_alias sampleApi (some 7) none = Except.ok none ∧
    get_food_unit sampleApi none (some 7) none = Except.ok none :=
  ⟨(lookup_unknown_returns_none sampleApi ("pork") ("x") 7).1 rfl rfl,
   (lookup_unknown_returns_none sampleApi ("pork") ("x") 7).2.2.1 rfl,
   (lookup_unknown_returns_none sampleApi ("pork") ("x") 7).2.2.2.1 rfl,
   (lookup_unknown_returns_none sampleApi ("pork") ("x") 7).2.2.2.2 rfl⟩

/-!
Heap model for the `nutrient_header` property (src/database.py lines
86-88).  The property body is `return list(self._nutrient_header)`:
it builds a NEW Python list object whose contents copy the internal
`_nutrient_header` list.  To state the aliasing consequence we model
Python list objects as cells of a small heap addressed by `Nat`
references; the `FnddsAPI` object holds a reference to its internal
list, and the property allocates a fresh cell.
-/

/-- A heap of Python list-of-string objects: `cells` maps a reference to
the list stored there, `next` is the next fresh reference (every
allocated reference is below `next`). -/
structure ListHeap where
  cells : Nat → List String
  next : Nat

/-- The object identity side of an `FnddsAPI` instance: the reference to
its internal `_nutrient_header` list. -/
structure ApiRef where
  headerRef : Nat

/-- The Python `list(...)` constructor applied to a list of strings:
builds a new list element by element (same contents, fresh object). -/
def listCtor : List String → List String
  | [] => []
  | x :: xs => x :: listCtor xs

/-- The `nutrient_header` property getter (src/database.py lines 86-88):
allocates a fresh cell holding `list(self._nutrient_header)` and returns
its reference together with the updated heap. -/
def readNutrientHeader (h : ListHeap) (api : ApiRef) : Nat × ListHeap :=
  (h.next,
   ⟨fun i => if i = h.next then listCtor (h.cells api.headerRef) else h.cells i,
    h.next + 1⟩)

/-- An in-place mutation of the list object at reference `r` (what a
caller does to the list the property returned). -/
def setCell (h : ListHeap) (r : Nat) (v : List String) : ListHeap :=
  ⟨fun i => if i = r then v else h.cells i, h.next⟩

lemma listCtor_eq (l : List String) : listCtor l = l := by
  induction l with
  | nil => rfl
  | cons x xs ih => simp [listCtor, ih]

/-- Claim C10: reading `nutrient_header` yields a fresh list equal to the
internally stored header; mutating the returned list leaves the internal
header unchanged; and a second read after the mutation returns a list
equal to the first read. (`hwf`: the object's internal reference is an
allocated cell, so it is distinct from the fresh one.) -/
theorem nutrient_header_returns_fresh_copy (h : ListHeap) (api : ApiRef)
    (v : List String) (hwf : api.headerRef < h.next) :
    (readNutrientHeader h api).2.cells (readNutrientHeader h api).1 =
      h.cells api.headerRef ∧
    (setCell (readNutrientHeader h api).2 (readNutrientHeader h api).1 v).cells
      api.headerRef = h.cells api.headerRef ∧
    (readNutrientHeader
        (setCell (readNutrientHeader h api).2 (readNutrientHeader h api).1 v)
        api).2.cells
      (readNutrientHeader
        (setCell (readNutrientHeader h api).2 (readNutrientHeader h api).1 v)
        api).1 =
      (readNutrientHeader h api).2.cells (readNutrientHeader h api).1 := by
  have hne : api.headerRef ≠ h.next := Nat.ne_of_lt hwf
  refine ⟨?_, ?_, ?_⟩
  · simp [readNutrientHeader, listCtor_eq]
  · simp [readNutrientHeader, setCell, hne, listCtor_eq]
  · simp [readNutrientHeader, setCell, hne, listCtor_eq]

/-- Witness for Claim C10 at a concrete heap: one allocated cell holding
`["protein", "fat"]`, mutated to `[]` after the read. -/
theorem nutrient_header_returns_fresh_copy_witness :
    (readNutrientHeader (ListHeap.mk (fun _ => [("protein"), ("fat")]) 1)
        (ApiRef.mk 0)).2.cells
      (readNutrientHeader (ListHeap.mk (fun _ => [("protein"), ("fat")]) 1)
        (ApiRef.mk 0)).1 =
      (ListHeap.mk (fun _ => [("protein"), ("fat")]) 1).cells (ApiRef.mk 0).headerRef ∧
    (setCell
        (readNutrientHeader (ListHeap.mk (fun _ => [("protein"), ("fat")]) 1)
          (ApiRef.mk 0)).2
        (readNutrientHeader (ListHeap.mk (fun _ => [("protein"), ("fat")]) 1)
          (ApiRef.mk 0)).1 []).cells
      (ApiRef.mk 0).headerRef =
      (ListHeap.mk (fun _ => [("protein"), ("fat")]) 1).cells (ApiRef.mk 0).headerRef ∧
    (readNutrientHeader
        (setCell
          (readNutrientHeader (ListHeap.mk (fun _ => [("protein"), ("fat")]) 1)
            (ApiRef.mk 0)).2
          (readNutrientHeader (ListHeap.mk (fun _ => [("protein"), ("fat")]) 1)
            (ApiRef.mk 0)).1 [])
        (ApiRef.mk 0)).2.cells
      (readNutrientHeader
        (setCell
          (readNutrientHeader (ListHeap.mk (fun _ => [("protein"), ("fat")]) 1)
            (ApiRef.mk 0)).2
          (readNutrientHeader (ListHeap.mk (fun _ => [("protein"), ("fat")]) 1)
            (ApiRef.mk 0)).1 [])
        (ApiRef.mk 0)).1 =
      (readNutrientHeader (ListHeap.mk (fun _ => [("protein"), ("fat")]) 1)
        (ApiRef.mk 0)).2.cells
      (readNutrientHeader (ListHeap.mk (fun _ => [("protein"), ("fat")]) 1)
        (ApiRef.mk 0)).1 :=
  nutrient_header_returns_fresh_copy
    (ListHeap.mk (fun _ => [("protein"), ("fat")]) 1) (ApiRef.mk 0) []
    (by decide)

/-!
Embedding of `src/graph.py`, class `Node`.  A node's mutable state is
its `_children` attribute (set by `Node.__call__`) and its `_parents`
attribute (initialised to `None` in `__init__` and never written
elsewhere in the source).  Arguments passed to `__call__` are arbitrary
Python values; we model the shapes the validation code distinguishes:
a `Node`, a `list`, a `tuple`, a `dict` (string-keyed), or any other
value.  Nodes are identified by `Nat` identifiers.
-/

/-- A Python value passed to `Node.__call__`: a node reference, a list,
a tuple, a string-keyed dict, or any other (non-node, non-collection)
value. -/
inductive Arg where
  | node : Nat → Arg
  | list : List Arg → Arg
  | tuple : List Arg → Arg
  | dict : List (String × Arg) → Arg
  | other : Arg

/-- `isinstance(x, Node)`. -/
def Arg.isNode : Arg → Bool
  | Arg.node _ => true
  | _ => false

/-- The exceptions `Node.__call__` can raise: `ValueError` from the
explicit `raise`, `AssertionError` from the `assert` statements. -/
inductive PyErr where
  | valueError : String → PyErr
  | assertionError : String → PyErr

/-- The message bound to `_invalid_msg` in `Node.__call__`
(src/graph.py line 129). -/
def invalidMsg : String := "Invalid argument type. Expected Node or list/tuple/dict of Nodes."

/-- Whether `Node.__call__` accepts a single argument: a node, or a
flat list/tuple/dict whose elements (dict: values) are all nodes
(src/graph.py lines 131-141). -/
def argValid : Arg → Bool
  | Arg.node _ => true
  | Arg.list xs => xs.all Arg.isNode
  | Arg.tuple xs => xs.all Arg.isNode
  | Arg.dict kvs => kvs.all (fun kv => kv.2.isNode)
  | Arg.other => false

/-- Validation of one positional argument, one iteration of the first
loop of `Node.__call__` (src/graph.py lines 131-141): a node passes, a
flat collection of nodes passes, a collection holding a non-node fails
the `assert`, anything else raises `ValueError`. -/
def processArg : Arg → Except PyErr Arg
  | Arg.node i => Except.ok (Arg.node i)
  | Arg.list xs =>
    if xs.all Arg.isNode then Except.ok (Arg.list xs)
    else Except.error (PyErr.assertionError invalidMsg)
  | Arg.tuple xs =>
    if xs.all Arg.isNode then Except.ok (Arg.tuple xs)
    else Except.error (PyErr.assertionError invalidMsg)
  | Arg.dict kvs =>
    if kvs.all (fun kv => kv.2.isNode) then Except.ok (Arg.dict kvs)
    else Except.error (PyErr.assertionError invalidMsg)
  | Arg.other => Except.error (PyErr.valueError invalidMsg)

/-- The first validation loop of `Node.__call__` over `args`: stops at
the first failing argument, otherwise rebuilds the argument list. -/
def processArgs : List Arg → Except PyErr (List Arg)
  | [] => Except.ok []
  | a :: rest =>
    match processArg a with
    | Except.error e => Except.error e
    | Except.ok a2 =>
      match processArgs rest with
      | Except.error e => Except.error e
      | Except.ok rest2 => Except.ok (a2 :: rest2)

/-- The second validation loop of `Node.__call__` over `kwargs`
(src/graph.py lines 143-154): validates each value, keeping its key. -/
def processKwargs : List (String × Arg) → Except PyErr (List (String × Arg))
  | [] => Except.ok []
  | kv :: rest =>
    match processArg kv.2 with
    | Except.error e => Except.error e
    | Except.ok v2 =>
      match processKwargs rest with
      | Except.error e => Except.error e
      | Except.ok rest2 => Except.ok ((kv.1, v2) :: rest2)

/-- The `_children` attribute after a successful bind: the validated
positional arguments and keyword arguments, as stored by
`self._children = (_args, _kwargs)` (src/graph.py line 156). -/
abbrev Children := List Arg × List (String × Arg)

/-- Outcome of one `Node.__call__` invocation: the returned value or the
exception, the node's `_children` attribute afterwards, and whether the
`logger.warning` on line 127 fired. -/
structure CallResult where
  result : Except PyErr Nat
  children : Option Children
  warned : Bool

/-- `Node.__call__` (src/graph.py lines 112-158) for the node with
identifier `selfId` whose `_children` attribute currently holds
`children0`: warns iff children were already bound, validates every
positional and keyword argument, and on success stores the validated
arguments and returns `self`.  On an exception the `_children`
attribute is left as it was (the assignment on line 156 is never
reached). -/
def nodeCall (selfId : Nat) (children0 : Option Children) (args : List Arg)
    (kwargs : List (String × Arg)) : CallResult :=
  let warned := children0.isSome
  match processArgs args with
  | Except.error e => ⟨Except.error e, children0, warned⟩
  | Except.ok as =>
    match processKwargs kwargs with
    | Except.error e => ⟨Except.error e, children0, warned⟩
    | Except.ok ks => ⟨Except.ok selfId, some (as, ks), warned⟩

/-- The per-object attribute state of one `Node` (src/graph.py lines
67-69): `_children` and `_parents`, both `None` after `__init__`. -/
structure NodeState where
  children : Option Children
  parents : Option (List Nat)

/-- The states of all node objects, by identifier. -/
def World := Nat → NodeState

/-- `Node.__call__` acting on the whole object graph: only the calling
node's `_children` attribute is written; no `_parents` attribute of any
node is touched (the source never writes `_parents` outside
`__init__`). -/
def worldCall (w : World) (selfId : Nat) (args : List Arg)
    (kwargs : List (String × Arg)) : Except PyErr Nat × World × Bool :=
  let r := nodeCall selfId (w selfId).children args kwargs
  (r.result,
   fun i => if i = selfId then ⟨r.children, (w selfId).parents⟩ else w i,
   r.warned)

lemma processArg_ok_of_valid (a : Arg) (h : argValid a = true) :
    processArg a = Except.ok a := by
  cases a with
  | node i => rfl
  | list xs =>
    simp only [argValid] at h
    simp only [processArg]
    rw [h]
    simp
  | tuple xs =>
    simp only [argValid] at h
    simp only [processArg]
    rw [h]
    simp
  | dict kvs =>
    simp only [argValid] at h
    simp only [processArg]
    rw [h]
    simp
  | other => cases h

lemma processArg_err_of_invalid (a : Arg) (h : argValid a = false) :
    ∃ e, processArg a = Except.error e := by
  cases a with
  | node i => cases h
  | list xs =>
    simp only [argValid] at h
    simp only [processArg]
    rw [h]
    exact ⟨PyErr.assertionError invalidMsg, by simp⟩
  | tuple xs =>
    simp only [argValid] at h
    simp only [processArg]
    rw [h]
    exact ⟨PyErr.assertionError invalidMsg, by simp⟩
  | dict kvs =>
    simp only [argValid] at h
    simp only [processArg]
    rw [h]
    exact ⟨PyErr.assertionError invalidMsg, by simp⟩
  | other => exact ⟨PyErr.valueError invalidMsg, rfl⟩

lemma processArgs_ok_of_valid (args : List Arg)
    (h : ∀ a ∈ args, argValid a = true) :
    processArgs args = Except.ok args := by
  induction args with
  | nil => rfl
  | cons a rest ih =>
    have ha := processArg_ok_of_valid a (h a (List.mem_cons_self a rest))
    have hrest := ih (fun x hx => h x (List.mem_cons_of_mem a hx))
    simp [processArgs, ha, hrest]

lemma processKwargs_ok_of_valid (kwargs : List (String × Arg))
    (h : ∀ kv ∈ kwargs, argValid kv.2 = true) :
    processKwargs kwargs = Except.ok kwargs := by
  induction kwargs with
  | nil => rfl
  | cons kv rest ih =>
    have ha := processArg_ok_of_valid kv.2 (h kv (List.mem_cons_self kv rest))
    have hrest := ih (fun x hx => h x (List.mem_cons_of_mem kv hx))
    simp [processKwargs, ha, hrest]

lemma processArgs_err_of_mem (args : List Arg) (a : Arg) (hmem : a ∈ args)
    (hbad : argValid a = false) :
    ∃ e, processArgs args = Except.error e := by
  induction args with
  | nil => cases hmem
  | cons x rest ih =>
    cases hpx : processArg x with
    | error e => exact ⟨e, by simp [processArgs, hpx]⟩
    | ok x2 =>
      have hxvalid : argValid x = true := by
        by_contra hxv
        obtain ⟨e, he⟩ := processArg_err_of_invalid x (Bool.eq_false_iff.mpr hxv)
        rw [he] at hpx
        cases hpx
      have hmem' : a ∈ rest := by
        cases List.mem_cons.mp hmem with
        | inl h => subst h; rw [hxvalid] at hbad; cases hbad
        | inr h => exact h
      obtain ⟨e, he⟩ := ih hmem'
      exact ⟨e, by simp [processArgs, hpx, he]⟩

lemma processKwargs_err_of_mem (kwargs : List (String × Arg)) (a : Arg)
    (hmem : a ∈ kwargs.map Prod.snd) (hbad : argValid a = false) :
    ∃ e, processKwargs kwargs = Except.error e := by
  induction kwargs with
  | nil => cases hmem
  | cons kv rest ih =>
    cases hpx : processArg kv.2 with
    | error e => exact ⟨e, by simp [processKwargs, hpx]⟩
    | ok v2 =>
      have hxvalid : argValid kv.2 = true := by
        by_contra hxv
        obtain ⟨e, he⟩ := processArg_err_of_invalid kv.2 (Bool.eq_false_iff.mpr hxv)
        rw [he] at hpx
        cases hpx
      have hmem' : a ∈ rest.map Prod.snd := by
        cases List.mem_cons.mp hmem with
        | inl h => subst h; rw [hxvalid] at hbad; cases hbad
        | inr h => exact h
      obtain ⟨e, he⟩ := ih hmem'
      exact ⟨e, by simp [processKwargs, hpx, he]⟩

/-- Claim C5: a positional or keyword argument that is neither a node
nor a flat list/tuple/dict of nodes (nested collections included, since
their elements fail `isinstance(i, Node)`) makes `Node.__call__` raise,
and the `_children` attribute keeps its previous value — in particular
it stays unbound when it was unbound. -/
theorem call_rejects_invalid_argument (selfId : Nat) (ch0 : Option Children)
    (args : List Arg) (kwargs : List (String × Arg)) (a : Arg)
    (hmem : a ∈ args ∨ a ∈ kwargs.map Prod.snd) (hbad : argValid a = false) :
    isErr (nodeCall selfId ch0 args kwargs).result = true ∧
    (nodeCall selfId ch0 args kwargs).children = ch0 := by
  cases hmem with
  | inl hargs =>
    obtain ⟨e, he⟩ := processArgs_err_of_mem args a hargs hbad
    simp [nodeCall, he, isErr]
  | inr hkw =>
    obtain ⟨e, he⟩ := processKwargs_err_of_mem kwargs a hkw hbad
    cases h : processArgs args with
    | error e2 => simp [nodeCall, h, isErr]
    | ok as => simp [nodeCall, h, he, isErr]

/-- Witness for Claim C5: binding with the nested argument `[[node 1]]`
(a list of lists of nodes) raises and leaves the children unbound. -/
theorem call_rejects_invalid_argument_witness :
    isErr (nodeCall 0 none [Arg.list [Arg.list [Arg.node 1]]] []).result = true ∧
    (nodeCall 0 none [Arg.list [Arg.list [Arg.node 1]]] []).children = none :=
  call_rejects_invalid_argument 0 none [Arg.list [Arg.list [Arg.node 1]]] []
    (Arg.list [Arg.list [Arg.node 1]]) (Or.inl (List.mem_singleton.mpr rfl))
    (by rfl)

/-- Claim C6: with acceptable arguments, calling an already-bound node
again does not raise, replaces the stored children with the new
arguments, and fires the overwrite warning; the same call on an unbound
node fires no warning. -/
theorem call_rebinds_with_warning (selfId : Nat) (ch : Children)
    (args : List Arg) (kwargs : List (String × Arg))
    (h1 : ∀ a ∈ args, argValid a = true)
    (h2 : ∀ kv ∈ kwargs, argValid kv.2 = true) :
    (nodeCall selfId (some ch) args kwargs).result = Except.ok selfId ∧
    (nodeCall selfId (some ch) args kwargs).children = some (args, kwargs) ∧
    (nodeCall selfId (some ch) args kwargs).warned = true ∧
    (nodeCall selfId none args kwargs).warned = false := by
  have ha := processArgs_ok_of_valid args h1
  have hk := processKwargs_ok_of_valid kwargs h2
  refine ⟨?_, ?_, ?_, ?_⟩ <;> simp [nodeCall, ha, hk]

/-- Witness for Claim C6: rebinding node 0 (previously bound to node 1)
to node 2 succeeds, overwrites, and warns; the first binding does not
warn. -/
theorem call_rebinds_with_warning_witness :
    (nodeCall 0 (some ([Arg.node 1], [])) [Arg.node 2] []).result = Except.ok 0 ∧
    (nodeCall 0 (some ([Arg.node 1], [])) [Arg.node 2] []).children =
      some ([Arg.node 2], []) ∧
    (nodeCall 0 (some ([Arg.node 1], [])) [Arg.node 2] []).warned = true ∧
    (nodeCall 0 none [Arg.node 2] []).warned = false :=
  call_rebinds_with_warning 0 ([Arg.node 1], []) [Arg.node 2] []
    (by intro a ha; rw [List.mem_singleton] at ha; subst ha; rfl)
    (by intro kv hkv; cases hkv)

/-- A world in which node 0 is node 1's parent (node 0's children are
bound to node 1, and node 1's parents record node 0, as the intended
back-references would).  So node 0 is an ancestor of node 1. -/
def ancestorWorld : World := fun i =>
  if i = 0 then ⟨some ([Arg.node 1], []), none⟩
  else if i = 1 then ⟨none, some [0]⟩
  else ⟨none, none⟩

/-- Claim C4 (code bug): binding node 1's children to its ancestor
node 0 does NOT raise — `Node.__call__` performs no ancestor check — and
the cycle-forming edge is created: afterwards node 1's children hold
node 0 while node 0's children still hold node 1. -/
theorem call_creates_cycle_with_ancestor :
    (worldCall ancestorWorld 1 [Arg.node 0] []).1 = Except.ok 1 ∧
    ((worldCall ancestorWorld 1 [Arg.node 0] []).2.1 1).children =
      some ([Arg.node 0], []) ∧
    ((worldCall ancestorWorld 1 [Arg.node 0] []).2.1 0).children =
      some ([Arg.node 1], []) :=
  ⟨rfl, rfl, rfl⟩

/-- A world of freshly constructed nodes: every `_children` and
`_parents` attribute is `None`, as `__init__` leaves them. -/
def freshWorld : World := fun _ => ⟨none, none⟩

/-- Claim C7 (code bug): a successful bind returns the node itself
(`return self`, enabling chaining) and stores the children, but the
child's `_parents` attribute is never updated — it stays `None`, so the
binder is not a member of the child's parents. -/
theorem call_returns_self_without_parent_update :
    (worldCall freshWorld 0 [Arg.node 1] []).1 = Except.ok 0 ∧
    ((worldCall freshWorld 0 [Arg.node 1] []).2.1 0).children =
      some ([Arg.node 1], []) ∧
    ((worldCall freshWorld 0 [Arg.node 1] []).2.1 1).parents = none :=
  ⟨rfl, rfl, rfl⟩

/-- The node identifier a top-level element of a validated slot
contributes: a node contributes itself, anything else nothing. -/
def topId : Arg → Option Nat
  | Arg.node i => some i
  | _ => none

/-- The node identifiers one bound slot contributes, in slot order: a
single node, the elements of a list/tuple, or the values of a dict
(validation guarantees the collections are flat, so only top-level nodes
occur). -/
def argNodeIds : Arg → List Nat
  | Arg.node i => [i]
  | Arg.list xs => xs.filterMap topId
  | Arg.tuple xs => xs.filterMap topId
  | Arg.dict kvs => kvs.filterMap (fun kv => topId kv.2)
  | Arg.other => []

/-- Modelled from the spec: `Node.get_children` (src/graph.py lines
161-165) has an empty body (`pass`) in src — the spec says it returns
the flattened ordered collection of the distinct child nodes regardless
of slot structure.  We flatten the positional slots then the keyword
slots in order and keep each identifier once. -/
def get_children (ch : Option Children) : List Nat :=
  match ch with
  | none => []
  | some (as, ks) =>
    (as.flatMap argNodeIds ++ ks.flatMap (fun kv => argNodeIds kv.2)).dedup

lemma filterMap_topId_comp_node (xs : List Nat) :
    List.filterMap (topId ∘ Arg.node) xs = xs := by
  induction xs with
  | nil => rfl
  | cons x rest ih =>
    show x :: List.filterMap (topId ∘ Arg.node) rest = x :: rest
    rw [ih]

lemma filterMap_topId_comp_dict (kvs : List (String × Nat)) :
    List.filterMap
      ((fun kv => topId kv.2) ∘ (fun kv : String × Nat => (kv.1, Arg.node kv.2)))
      kvs = List.map Prod.snd kvs := by
  induction kvs with
  | nil => rfl
  | cons kv rest ih =>
    show kv.2 ::
        List.filterMap
          ((fun kv => topId kv.2) ∘
            (fun kv : String × Nat => (kv.1, Arg.node kv.2)))
          rest =
      kv.2 :: List.map Prod.snd rest
    rw [ih]

/-- Claim C8: for a bound node, `get_children` returns each distinct
child identifier exactly once (the result has no duplicates and holds
exactly the identifiers occurring in the slots), and each slot shape —
single node, list or tuple of nodes, keyed dict of nodes — contributes
exactly its nodes in slot order to the flattening. -/
theorem get_children_flattens_distinct (as : List Arg)
    (ks : List (String × Arg)) (xs : List Nat) (kvs : List (String × Nat))
    (j : Nat) :
    (get_children (some (as, ks))).Nodup ∧
    (∀ i, i ∈ get_children (some (as, ks)) ↔
      i ∈ as.flatMap argNodeIds ++ ks.flatMap (fun kv => argNodeIds kv.2)) ∧
    argNodeIds (Arg.node j) = [j] ∧
    argNodeIds (Arg.list (xs.map Arg.node)) = xs ∧
    argNodeIds (Arg.tuple (xs.map Arg.node)) = xs ∧
    argNodeIds (Arg.dict (kvs.map (fun kv => (kv.1, Arg.node kv.2)))) =
      kvs.map Prod.snd := by
  refine ⟨List.nodup_dedup _, fun i => List.mem_dedup, rfl, ?_, ?_, ?_⟩
  · simp [argNodeIds, List.filterMap_map, filterMap_topId_comp_node]
  · simp [argNodeIds, List.filterMap_map, filterMap_topId_comp_node]
  · simp [argNodeIds, List.filterMap_map, filterMap_topId_comp_dict]

/-!
Order Search (spec section 4.5).  The repository contains no search
code yet (src/graph.py documents the algorithm but implements none of
it), so the engine below is Modelled from the spec: ordering units with
identifiers, costs and background flags; dependency edges `(a, b)`
meaning `a` must precede `b`; enumeration of the topological orderings
by repeatedly choosing a ready unit; the background-absorption cost
model; and the deterministic minimal-cost selection with lexicographic
tie-breaking.
-/

/-- Modelled from the spec: the merged, contracted DAG handed to the
Order Search — ordering units with a cost and a background flag, and
dependency edges `(a, b)` meaning unit `a` must precede unit `b`. -/
structure DepGraph where
  units : List Nat
  deps : List (Nat × Nat)
  cost : Nat → ℚ
  isBg : Nat → Bool

/-- Modelled from the spec: a unit is ready when every dependency edge
into it comes from a unit already placed (no edge source still among the
remaining units). -/
def ready (g : DepGraph) (remaining : List Nat) (u : Nat) : Bool :=
  decide (∀ e ∈ g.deps, e.2 = u → e.1 ∉ remaining)

/-- Modelled from the spec: all orderings of the remaining units that
extend the placed prefix, built by branching over the ready units;
`fuel` bounds the recursion depth (the caller passes the unit count). -/
def topoExtsAux (g : DepGraph) : Nat → List Nat → List (List Nat)
  | _, [] => [[]]
  | 0, _ :: _ => []
  | fuel + 1, r :: rs =>
    ((r :: rs).filter (ready g (r :: rs))).flatMap
      (fun u => (topoExtsAux g fuel ((r :: rs).erase u)).map (fun o => u :: o))

/-- Modelled from the spec: every topological ordering of the graph. -/
def allTopos (g : DepGraph) : List (List Nat) :=
  topoExtsAux g g.units.length g.units

/-- Modelled from the spec: elapsed time of an ordering under the
background-absorption cost model.  `cap` is the still-unclaimed part of
the duration of the nearest preceding foreground unit: a foreground unit
adds its cost and resets `cap` to it; a background unit is absorbed up
to `cap` (consuming that much of the claim) and only its excess adds
elapsed time. -/
def elapsedGo (g : DepGraph) : ℚ → List Nat → ℚ
  | _, [] => 0
  | cap, u :: rest =>
    if g.isBg u then
      (g.cost u - min (g.cost u) cap) + elapsedGo g (cap - min (g.cost u) cap) rest
    else g.cost u + elapsedGo g (g.cost u) rest

/-- Modelled from the spec: elapsed time of a full ordering (no
foreground duration precedes the first unit, so the initial claimable
capacity is zero). -/
def elapsedTime (g : DepGraph) (o : List Nat) : ℚ :=
  elapsedGo g 0 o

/-- Modelled from the spec: the amount absorbed from foreground
durations by the background units of the ordering — each background unit
claims `min` of its cost and the unclaimed remainder of the nearest
preceding foreground duration, so claims never overlap. -/
def absorbedGo (g : DepGraph) : ℚ → List Nat → ℚ
  | _, [] => 0
  | cap, u :: rest =>
    if g.isBg u then
      min (g.cost u) cap + absorbedGo g (cap - min (g.cost u) cap) rest
    else absorbedGo g (g.cost u) rest

/-- Modelled from the spec: total absorption of a full ordering. -/
def absorbedTime (g : DepGraph) (o : List Nat) : ℚ :=
  absorbedGo g 0 o

/-- Sum of the costs of every unit of an ordering. -/
def sumCosts (g : DepGraph) (o : List Nat) : ℚ :=
  (o.map g.cost).sum

/-- Modelled from the spec: strict lexicographic comparison of unit
identifier sequences, the deterministic tie-break. -/
def lexLt : List Nat → List Nat → Bool
  | [], [] => false
  | [], _ :: _ => true
  | _ :: _, [] => false
  | a :: as, b :: bs => a < b || (a == b && lexLt as bs)

/-- Modelled from the spec: deterministic selection of a minimal-cost
candidate — ties broken by the lexicographically smaller identifier
sequence. -/
def chooseBest (g : DepGraph) : List (List Nat) → Option (List Nat)
  | [] => none
  | o :: rest =>
    match chooseBest g rest with
    | none => some o
    | some b =>
      if elapsedTime g o < elapsedTime g b ∨
          (elapsedTime g o = elapsedTime g b ∧ lexLt o b = true)
      then some o else some b

/-- Modelled from the spec: the Order Search — enumerate the topological
orderings and pick the minimal-cost one deterministically. -/
def orderSearch (g : DepGraph) : Option (List Nat) :=
  chooseBest g (allTopos g)

/-- What Claim C2 demands of an Order Search result: every unit of the
graph appears exactly once (the sequence is a permutation of the
duplicate-free unit list), and for every dependency edge `(a, b)` of the
graph, `a` occurs before `b` (`[a, b]` is a sublist of the sequence). -/
def IsTopoOrder (g : DepGraph) (o : List Nat) : Prop :=
  o.Perm g.units ∧
  ∀ a b : Nat, (a, b) ∈ g.deps → a ∈ g.units → b ∈ g.units →
    [a, b].Sublist o

lemma topoExtsAux_sound (g : DepGraph) :
    ∀ (fuel : Nat) (remaining o : List Nat), remaining.Nodup →
      o ∈ topoExtsAux g fuel remaining →
      o.Perm remaining ∧
      ∀ a b : Nat, (a, b) ∈ g.deps → a ∈ remaining → b ∈ remaining →
        [a, b].Sublist o := by
  intro fuel
  induction fuel with
  | zero =>
    intro remaining o hnd hmem
    cases remaining with
    | nil =>
      simp only [topoExtsAux, List.mem_singleton] at hmem
      subst hmem
      exact ⟨List.Perm.refl [], fun a b _ ha _ => absurd ha (List.not_mem_nil a)⟩
    | cons r rs => simp [topoExtsAux] at hmem
  | succ fuel ih =>
    intro remaining o hnd hmem
    cases remaining with
    | nil =>
      simp only [topoExtsAux, List.mem_singleton] at hmem
      subst hmem
      exact ⟨List.Perm.refl [], fun a b _ ha _ => absurd ha (List.not_mem_nil a)⟩
    | cons r rs =>
      simp only [topoExtsAux, List.mem_flatMap, List.mem_map,
        List.mem_filter] at hmem
      obtain ⟨u, ⟨humem, hready⟩, rest, hrestmem, rfl⟩ := hmem
      have hnd' : ((r :: rs).erase u).Nodup := hnd.erase u
      obtain ⟨hperm, hedges⟩ := ih ((r :: rs).erase u) rest hnd' hrestmem
      have hready' : ∀ e ∈ g.deps, e.2 = u → e.1 ∉ r :: rs := by
        simpa [ready] using hready
      constructor
      · exact (hperm.cons u).trans (List.perm_cons_erase humem).symm
      · intro a b hab ha hb
        by_cases hbu : b = u
        · subst hbu
          exact absurd ha (hready' (a, b) hab rfl)
        · have hb' : b ∈ (r :: rs).erase u := (List.mem_erase_of_ne hbu).mpr hb
          by_cases hau : a = u
          · subst hau
            have hbrest : b ∈ rest := hperm.mem_iff.mpr hb'
            exact List.Sublist.cons₂ a (List.singleton_sublist.mpr hbrest)
          · have ha' : a ∈ (r :: rs).erase u := (List.mem_erase_of_ne hau).mpr ha
            exact List.Sublist.cons u (hedges a b hab ha' hb')

lemma chooseBest_mem (g : DepGraph) :
    ∀ (cands : List (List Nat)) (o : List Nat),
      chooseBest g cands = some o → o ∈ cands := by
  intro cands
  induction cands with
  | nil => intro o h; cases h
  | cons c rest ih =>
    intro o h
    simp only [chooseBest] at h
    cases hr : chooseBest g rest with
    | none =>
      rw [hr] at h
      cases h
      exact List.mem_cons_self c rest
    | some b =>
      rw [hr] at h
      dsimp only at h
      by_cases hc : elapsedTime g c < elapsedTime g b ∨
          (elapsedTime g c = elapsedTime g b ∧ lexLt c b = true)
      · rw [if_pos hc] at h
        cases h
        exact List.mem_cons_self c rest
      · rw [if_neg hc] at h
        cases h
        exact List.mem_cons_of_mem c (ih _ hr)

/-- Claim C2: when the Order Search returns a sequence for a graph whose
unit list is duplicate-free, that sequence is a valid topological order:
it is a permutation of the unit list (every unit exactly once) and every
dependency edge `(a, b)` has `a` before `b` in it. -/
theorem orderSearch_topological (g : DepGraph) (o : List Nat)
    (hnd : g.units.Nodup) (h : orderSearch g = some o) :
    IsTopoOrder g o :=
  topoExtsAux_sound g g.units.length g.units o hnd (chooseBest_mem g _ o h)

/-- A concrete three-unit chain graph for evaluating the Order Search. -/
def chainGraph : DepGraph where
  units := [0, 1, 2]
  deps := [(0, 1), (1, 2)]
  cost := fun u => (u : ℚ) + 1
  isBg := fun _ => false

/-- Witness for Claim C2: on the concrete chain graph the Order Search
returns `[0, 1, 2]`, a valid topological order. -/
theorem orderSearch_topological_witness : IsTopoOrder chainGraph [0, 1, 2] :=
  orderSearch_topological chainGraph [0, 1, 2] (by decide) (by decide)

lemma elapsedGo_add_absorbedGo (g : DepGraph) (o : List Nat) :
    ∀ cap : ℚ, elapsedGo g cap o + absorbedGo g cap o = sumCosts g o := by
  induction o with
  | nil => intro cap; simp [elapsedGo, absorbedGo, sumCosts]
  | cons u rest ih =>
    intro cap
    by_cases hbg : g.isBg u = true
    · have h := ih (cap - min (g.cost u) cap)
      simp only [elapsedGo, absorbedGo, sumCosts, List.map_cons, List.sum_cons,
        hbg, if_true]
      simp only [sumCosts] at h
      linarith
    · rw [Bool.not_eq_true] at hbg
      have h := ih (g.cost u)
      simp only [elapsedGo, absorbedGo, sumCosts, List.map_cons, List.sum_cons,
        hbg, Bool.false_eq_true, if_false]
      simp only [sumCosts] at h
      linarith

/-- The two-unit graph of the spec's first absorption example: a
foreground unit 0 of cost 5 followed by a background unit 1 of cost 3. -/
def exampleGraphA : DepGraph where
  units := [0, 1]
  deps := [(0, 1)]
  cost := fun u => if u = 0 then 5 else 3
  isBg := fun u => u == 1

/-- The two-unit graph of the spec's second absorption example: a
foreground unit 0 of cost 2 followed by a background unit 1 of cost 3. -/
def exampleGraphB : DepGraph where
  units := [0, 1]
  deps := [(0, 1)]
  cost := fun u => if u = 0 then 2 else 3
  isBg := fun u => u == 1

/-- Claim C3: the elapsed time of an ordering is the sum of all unit
costs minus the total background absorption, where each background unit
claims `min` of its cost and the unclaimed remainder of the absorbing
foreground duration (claims applied once each, non-overlapping); a lone
background unit directly after a foreground unit claims exactly
`min(its cost, the foreground cost)`; and on the spec's two concrete
orderings the elapsed times are 5 and 3. -/
theorem elapsedTime_background_absorption :
    (∀ (g : DepGraph) (o : List Nat),
      elapsedTime g o = sumCosts g o - absorbedTime g o) ∧
    (∀ (g : DepGraph) (u v : Nat), g.isBg u = false → g.isBg v = true →
      elapsedTime g [u, v] =
        g.cost u + (g.cost v - min (g.cost v) (g.cost u))) ∧
    elapsedTime exampleGraphA [0, 1] = 5 ∧
    elapsedTime exampleGraphB [0, 1] = 3 := by
  refine ⟨?_, ?_, ?_, ?_⟩
  · intro g o
    have h := elapsedGo_add_absorbedGo g o 0
    simp only [elapsedTime, absorbedTime]
    linarith
  · intro g u v hu hv
    simp [elapsedTime, elapsedGo, hu, hv]
  · simp [elapsedTime, elapsedGo, exampleGraphA, min_def]
    norm_num
  · simp [elapsedTime, elapsedGo, exampleGraphB, min_def]
    norm_num

/-- Witness for Claim C3: the single-absorption equation instantiated on
the spec's first example graph. -/
theorem elapsedTime_background_absorption_witness :
    elapsedTime exampleGraphA [0, 1] =
      exampleGraphA.cost 0 +
        (exampleGraphA.cost 1 -
          min (exampleGraphA.cost 1) (exampleGraphA.cost 0)) :=
  elapsedTime_background_absorption.2.1 exampleGraphA 0 1 rfl rfl
